import Mathlib

/-!
Verification of the compartment-rs morphology ingestion core.

This file is a shallow embedding of the Rust sources src/swc_reader.rs and
src/compartments.rs.  Machine floats (f64) are modelled as rationals, so
arithmetic on coordinates and radii is exact; non-finite float literals and
the binary rounding of f64 are outside the model.  The file input is
modelled as the list of its lines (the BufReader lines iterator); a failed
unwrap in the Rust code (a process abort) is modelled by the result
constructor named panicked, while a returned Result Err is the fail
constructor carrying the message string.
-/

namespace CompartmentRs

/-- Structural type tag of an SWC record, from the CNIC spec
(src/swc_reader.rs, enum StructureIdentifier). -/
inductive StructureIdentifier where
  | Undefined
  | Soma
  | Axon
  | BasalDendrite
  | ApicalDendrite
  | ForkPoint
  | EndPoint
  | Custom
  deriving DecidableEq, Repr

/-- Translation of a parsed u8 type code (impl From for StructureIdentifier). -/
def StructureIdentifier.fromU8 (v : Nat) : StructureIdentifier :=
  match v with
  | 0 => .Undefined
  | 1 => .Soma
  | 2 => .Axon
  | 3 => .BasalDendrite
  | 4 => .ApicalDendrite
  | 5 => .ForkPoint
  | 6 => .EndPoint
  | _ => .Custom

/-- One parsed SWC record (struct Node in src/swc_reader.rs).  The u64
identifiers are modelled as Nat (the parser enforces the u64 range) and the
f64 coordinates and radius as rationals. -/
structure Node where
  node_id : Nat
  structured_identifier : StructureIdentifier
  x_pos : ℚ
  y_pos : ℚ
  z_pos : ℚ
  radius : ℚ
  parent_id : Nat
  deriving DecidableEq, Repr

/-- Result of running the reader: ok value, a returned Result Err (fail),
or a process abort through a failed unwrap (panicked). -/
inductive SwcResult (α : Type) where
  | ok (val : α)
  | fail (msg : String)
  | panicked
  deriving DecidableEq, Repr

/-- Fuel-driven Euclid gcd.  Kernel-reduction friendly replacement for
Nat.gcd, whose well-founded recursion blocks definitional evaluation. -/
def gcdAux : Nat → Nat → Nat → Nat
  | 0, a, _ => a
  | f + 1, a, b => if b = 0 then a else gcdAux f b (a % b)

/-- Greatest common divisor with sufficient fuel. -/
def rgcd (a b : Nat) : Nat := gcdAux (b + 1) a b

/-- Build the rational n / d in lowest terms.  Same normalization as the
library constructor, but computed with rgcd so that the kernel can
evaluate it (the library path normalizes through Nat.gcd, which does not
reduce definitionally).  The embedded proof shows rgcd agrees with
Nat.gcd, so the reduced fraction really is coprime. -/
def mkRatFast (n : Int) (d : Nat) : ℚ :=
  let g := rgcd n.natAbs d
  let n2 := n / (g : Int)
  let d2 := d / g
  if h : d2 ≠ 0 ∧ rgcd n2.natAbs d2 = 1 then
    ⟨n2, d2, h.1, by
      have key : ∀ fuel a b, b < fuel → gcdAux fuel a b = Nat.gcd b a := by
        intro fuel
        induction fuel with
        | zero => intro a b hb; omega
        | succ f ih =>
          intro a b hb
          by_cases hb0 : b = 0
          · subst hb0; simp [gcdAux]
          · have hlt : a % b < f := by
              have := Nat.mod_lt a (Nat.pos_of_ne_zero hb0)
              omega
            simp only [gcdAux, hb0, if_false]
            rw [ih b (a % b) hlt]
            exact (Nat.gcd_rec b a).symm
      have h2 := h.2
      rw [rgcd, key (d2 + 1) n2.natAbs d2 (Nat.lt_succ_self d2),
        Nat.gcd_comm] at h2
      exact h2⟩
  else 0

/-- Exact rational addition computed through mkRatFast. -/
def qadd (a b : ℚ) : ℚ :=
  mkRatFast (a.num * (b.den : Int) + b.num * (a.den : Int)) (a.den * b.den)

/-- Exact rational subtraction computed through mkRatFast. -/
def qsub (a b : ℚ) : ℚ := qadd a (-b)

/-- Exact rational multiplication computed through mkRatFast. -/
def qmul (a b : ℚ) : ℚ := mkRatFast (a.num * b.num) (a.den * b.den)

/-- The rational n / m for integers, zero denominators giving zero. -/
def qdivInt (n m : Int) : ℚ :=
  if m < 0 then mkRatFast (-n) (-m).toNat else mkRatFast n m.toNat

/-- Ten to an integer power, as an exact rational. -/
def pow10Q (e : Int) : ℚ :=
  if 0 ≤ e then ((10 ^ e.toNat : Nat) : ℚ) else qdivInt 1 (10 ^ (-e).toNat)

/-- Value of a nonempty all-digit character sequence, none otherwise.
Shared core of the Rust FromStr integer parsers. -/
def digitsVal? (cs : List Char) : Option Nat :=
  if !cs.isEmpty && cs.all Char.isDigit then
    some (cs.foldl (fun a c => a * 10 + (c.toNat - 48)) 0)
  else none

/-- Rust unsigned integer parsing accepts one optional leading plus sign. -/
def stripPlus (cs : List Char) : List Char :=
  match cs with
  | '+' :: r => r
  | _ => cs

/-- Model of str parse to u64: optional plus sign, digits, range check. -/
def parseU64? (s : String) : Option Nat :=
  (digitsVal? (stripPlus s.toList)).bind fun n =>
    if n < 2 ^ 64 then some n else none

/-- Model of str parse to u8: optional plus sign, digits, range check. -/
def parseU8? (s : String) : Option Nat :=
  (digitsVal? (stripPlus s.toList)).bind fun n =>
    if n < 256 then some n else none

/-- Model of str parse to i64: optional sign, digits, range check. -/
def parseI64? (s : String) : Option Int :=
  match s.toList with
  | '-' :: r => (digitsVal? r).bind fun n =>
      if (n : Int) ≤ 2 ^ 63 then some (-(n : Int)) else none
  | cs => (digitsVal? (stripPlus cs)).bind fun n =>
      if n < 2 ^ 63 then some (n : Int) else none

/-- Mantissa of a float literal: digits with at most one decimal point,
at least one digit present. -/
def parseMantissa? (cs : List Char) : Option ℚ :=
  match cs.splitOn '.' with
  | [ip] => (digitsVal? ip).map fun n => (n : ℚ)
  | [ip, fp] =>
      if ip.isEmpty && fp.isEmpty then none
      else if !(ip.all Char.isDigit) || !(fp.all Char.isDigit) then none
      else if ip.isEmpty then
        (digitsVal? fp).map fun f => qdivInt (f : Int) ((10 : Int) ^ fp.length)
      else if fp.isEmpty then
        (digitsVal? ip).map fun n => (n : ℚ)
      else
        (digitsVal? ip).bind fun i =>
          (digitsVal? fp).map fun f =>
            qadd ((i : ℚ)) (qdivInt (f : Int) ((10 : Int) ^ fp.length))
  | _ => none

/-- Exponent part of a float literal: optional sign and digits. -/
def parseExp? (cs : List Char) : Option Int :=
  match cs with
  | '+' :: r => (digitsVal? r).map fun n => (n : Int)
  | '-' :: r => (digitsVal? r).map fun n => -(n : Int)
  | r => (digitsVal? r).map fun n => (n : Int)

/-- Model of str parse to f64 over exact rationals: optional sign, decimal
mantissa, optional decimal exponent.  Non-finite literals (inf, NaN) and
hexadecimal floats are outside the rational model of f64. -/
def parseF64? (s : String) : Option ℚ :=
  match s.toList with
  | [] => none
  | cs0 =>
    let neg : Bool := match cs0 with
      | '-' :: _ => true
      | _ => false
    let cs1 : List Char := match cs0 with
      | '-' :: r => r
      | '+' :: r => r
      | r => r
    match (cs1.map fun c => if c = 'E' then 'e' else c).splitOn 'e' with
    | [m] => (parseMantissa? m).map fun q => if neg then -q else q
    | [m, e] =>
        (parseMantissa? m).bind fun q =>
          (parseExp? e).map fun ex =>
            if neg then -(qmul q (pow10Q ex)) else qmul q (pow10Q ex)
    | _ => none

/-- Whitespace splitter modelling split_whitespace: maximal nonempty runs
of non-whitespace characters. -/
def splitWSAux : List Char → List Char → List String
  | [], acc => if acc.isEmpty then [] else [String.mk acc.reverse]
  | c :: cs, acc =>
    if c.isWhitespace then
      (if acc.isEmpty then [] else [String.mk acc.reverse]) ++ splitWSAux cs []
    else splitWSAux cs (c :: acc)

/-- Fields of one line, as split_whitespace yields them. -/
def splitWS (s : String) : List String := splitWSAux s.toList []

/-- Comment test: line.starts_with the hash character. -/
def startsWithHash (s : String) : Bool :=
  match s.toList with
  | '#' :: _ => true
  | _ => false

/-- Translation of the parsed i64 parent field (src/swc_reader.rs line 102):
-1 becomes 0, any other value is cast as u64 (two-complement wrap). -/
def translateParent (praw : Int) : Nat :=
  if praw = -1 then 0 else (praw % 2 ^ 64).toNat

/-- Parse one non-comment line into a Node (the map closure at
src/swc_reader.rs lines 89 to 111).  The Rust code unwraps each field, so a
missing field among the first seven or a failed numeric parse is a panic,
modelled by none; fields beyond the seventh are never requested. -/
def parseLine (line : String) : Option Node :=
  match splitWS line with
  | f0 :: f1 :: f2 :: f3 :: f4 :: f5 :: f6 :: _ =>
    match parseU64? f0, parseU8? f1, parseF64? f2, parseF64? f3,
          parseF64? f4, parseF64? f5, parseI64? f6 with
    | some nid, some t, some x, some y, some z, some r, some praw =>
        some { node_id := nid
               structured_identifier := StructureIdentifier.fromU8 t
               x_pos := x
               y_pos := y
               z_pos := z
               radius := r
               parent_id := translateParent praw }
    | _, _, _, _, _, _, _ => none
  | _ => none

/-- Parse all non-comment lines in order (the lazy map plus collect at
src/swc_reader.rs lines 87 to 125): the first panic or returned Err wins.
The zero-radius warning branch returns Err only when warnings are enabled,
the type is not EndPoint and strict mode is on. -/
def parseNodes (emit strict : Bool) : List String → SwcResult (List Node)
  | [] => .ok []
  | l :: ls =>
    match parseLine l with
    | none => .panicked
    | some n =>
      if n.radius = 0 ∧ emit = true ∧
          n.structured_identifier ≠ .EndPoint ∧ strict = true then
        .fail "Zero-radius for non-endpoint"
      else
        match parseNodes emit strict ls with
        | .ok ns => .ok (n :: ns)
        | .fail m => .fail m
        | .panicked => .panicked

/-- Children adjacency built from parent identifiers (the children HashMap
at src/swc_reader.rs lines 143 to 146): for each key, the node identifiers
whose record carries that parent, in input order. -/
def childrenOf (nodes : List Node) (p : Nat) : List Nat :=
  (nodes.filter fun n => decide (n.parent_id = p)).map fun n => n.node_id

/-- Decreasing measure of the BFS loop: queue length plus the number of
records whose parent has not been visited (each push of a child is paid
for by its record leaving the second count when the parent is visited). -/
def bfsMeasure (nodes : List Node) (queue visited : List Nat) : Nat :=
  queue.length + (nodes.filter fun n => !decide (n.parent_id ∈ visited)).length

/-- Fueled BFS worklist loop (src/swc_reader.rs lines 159 to 175).
Dequeuing an already visited identifier increments the cycle-warning count
and skips it; otherwise the identifier is visited, appended to the order,
and its not yet visited children are enqueued.  Returns the visiting order
and the number of cycle warnings; none when the fuel runs out with a
nonempty queue (bfsGo_total shows the measure is always enough fuel, so
the loop models the unbounded Rust while loop faithfully). -/
def bfsGo (nodes : List Node) :
    Nat → List Nat → List Nat → List Nat → Nat → Option (List Nat × Nat)
  | _, [], _, order, warns => some (order, warns)
  | 0, _ :: _, _, _, _ => none
  | fuel + 1, v :: rest, visited, order, warns =>
    if v ∈ visited then
      bfsGo nodes fuel rest visited order (warns + 1)
    else
      bfsGo nodes fuel
        (rest ++ (childrenOf nodes v).filter fun c => !decide (c ∈ v :: visited))
        (v :: visited) (order ++ [v]) warns

/-- The BFS loop as the Rust code runs it: the fueled loop started with its
own measure as fuel, which bfsGo_total shows always suffices. -/
def bfsLoop (nodes : List Node) (queue visited order : List Nat) (warns : Nat) :
    List Nat × Nat :=
  (bfsGo nodes (bfsMeasure nodes queue visited) queue visited order warns).getD
    (order, warns)

/-- Root selection (src/swc_reader.rs lines 149 to 152): the first record
in input order whose translated parent identifier is 0. -/
def rootOf (ns : List Node) : Option Node :=
  ns.find? fun n => decide (n.parent_id = 0)

/-- The BFS visiting order produced for a parsed node list and root. -/
def swcOrder (ns : List Node) (root : Node) : List Nat :=
  (bfsLoop ns [root.node_id] [] [] 0).1

/-- Last index of x in l, none when absent.  Models a HashMap built by a
forward iteration whose later inserts overwrite earlier ones. -/
def lastIdxOf : List Nat → Nat → Option Nat
  | [], _ => none
  | a :: as, x =>
    match lastIdxOf as x with
    | some j => some (j + 1)
    | none => if a = x then some 0 else none

/-- Lookup map node identifier to Node (the nodes_by_id HashMap at
src/swc_reader.rs line 137): the last record with that identifier wins. -/
def nodeById (ns : List Node) (id : Nat) : Option Node :=
  (ns.filter fun n => decide (n.node_id = id)).getLast?

/-- Remap one visited identifier to its output record (the map closure at
src/swc_reader.rs lines 192 to 228): look the record up by old identifier,
give it its position-derived new identifier, remap its parent (records with
translated parent 0 become self-referencing, an unmapped parent falls back
to 0) and repair a zero radius to 1.  The HashMap index operations panic
when absent, modelled by none. -/
def remapNode (ns : List Node) (order : List Nat) (oldId : Nat) : Option Node :=
  match nodeById ns oldId, lastIdxOf order oldId with
  | some n, some newId =>
      some { n with
        node_id := newId
        parent_id :=
          if n.parent_id = 0 then newId
          else (lastIdxOf order n.parent_id).getD 0
        radius := if n.radius = 0 then 1 else n.radius }
  | _, _ => none

/-- Remap every identifier of the remaining visiting order. -/
def remapAux (ns : List Node) (order : List Nat) : List Nat → Option (List Node)
  | [] => some []
  | o :: os =>
    match remapNode ns order o, remapAux ns order os with
    | some n, some rest => some (n :: rest)
    | _, _ => none

/-- Remap the whole visiting order (the remapped_nodes vector). -/
def remapPhase (ns : List Node) (order : List Nat) : Option (List Node) :=
  remapAux ns order order

/-- Forward map of the returned triple (parent_child_map): built by pushing
node_id under key parent_id for each remapped record in order, so the entry
at k is the list of remapped identifiers whose parent is k; a missing entry
is the empty list. -/
def parentChildMap (rem : List Node) (k : Nat) : List Nat :=
  (rem.filter fun n => decide (n.parent_id = k)).map fun n => n.node_id

/-- Backward map of the returned triple (child_parent_map): entry at k
lists the parent of each remapped record whose identifier is k. -/
def childParentMap (rem : List Node) (k : Nat) : List Nat :=
  (rem.filter fun n => decide (n.node_id = k)).map fun n => n.parent_id

/-- Comment filtering (src/swc_reader.rs line 84). -/
def nonComment (lines : List String) : List String :=
  lines.filter fun l => !(startsWithHash l)

/-- Parse stage of swc_reader including the option defaults:
emit_warnings defaults to true, strict to false. -/
def parsedOf (lines : List String) (ew st : Option Bool) : SwcResult (List Node) :=
  parseNodes (ew.getD true) (st.getD false) (nonComment lines)

/-- The swc_reader entry point (src/swc_reader.rs lines 73 to 281) over the
list of input lines: filter comments, parse, pick the root, BFS, remap.
File opening and the optional write-back side effect are outside this
value; the write output is modelled separately by writeLines. -/
def swc_reader (lines : List String) (emit_warnings strict : Option Bool) :
    SwcResult (List Node) :=
  match parsedOf lines emit_warnings strict with
  | .panicked => .panicked
  | .fail m => .fail m
  | .ok ns =>
    match rootOf ns with
    | none => .fail "No root node found (parent_id == 0)"
    | some root =>
      match remapPhase ns (swcOrder ns root) with
      | none => .panicked
      | some rem => .ok rem

/-- Numeric code written back for a structural type (the match at
src/swc_reader.rs lines 247 to 256). -/
def typeCode : StructureIdentifier → Nat
  | .Undefined => 0
  | .Soma => 1
  | .Axon => 2
  | .BasalDendrite => 3
  | .ApicalDendrite => 4
  | .ForkPoint => 5
  | .EndPoint => 6
  | .Custom => 7

/-- Floor of a rational, computed with flooring integer division. -/
def qfloor (q : ℚ) : Int := q.num.fdiv (q.den : Int)

/-- Nearest integer with ties to even, the rounding used by float
formatting with a fixed precision. -/
def roundHalfEven (q : ℚ) : Int :=
  let f := qfloor q
  let r := qsub q ((f : Int) : ℚ)
  let half := mkRatFast 1 2
  if r < half then f
  else if half < r then f + 1
  else if f % 2 = 0 then f else f + 1

/-- Repeated zero characters, for decimal padding. -/
def zeros : Nat → String
  | 0 => ""
  | n + 1 => "0" ++ zeros n

/-- Fixed two-decimal formatting of an f64 value (the .2 format used for
positions in the write-back). -/
def fmt2 (q : ℚ) : String :=
  let n := roundHalfEven (qmul q 100)
  let a := n.natAbs
  (if n < 0 then "-" else "") ++ toString (a / 100) ++ "."
    ++ (if a % 100 < 10 then "0" else "") ++ toString (a % 100)

/-- Default Display formatting of an f64 value, modelled for rationals with
a finite decimal expansion: shortest decimal without trailing zeros, an
integer value printed without a decimal point.  This matches the Rust
float Display output on every value this model produces. -/
def fmtF64 (q : ℚ) : String :=
  match (List.range 41).find? fun k => decide (q.den ∣ 10 ^ k) with
  | none => toString q.num ++ "/" ++ toString q.den
  | some k =>
    if k = 0 then toString q.num
    else
      let a := (q.num.natAbs * 10 ^ k) / q.den
      let fps := toString (a % 10 ^ k)
      (if q < 0 then "-" else "") ++ toString (a / 10 ^ k) ++ "."
        ++ zeros (k - fps.length) ++ fps

/-- One written line of the processed file (src/swc_reader.rs lines 236 to
263): identifier, type code, positions to two decimals, radius, and the
parent, with a self-referencing record written back as parent -1. -/
def fmtNode (n : Node) : String :=
  toString n.node_id ++ " " ++ toString (typeCode n.structured_identifier) ++ " "
    ++ fmt2 n.x_pos ++ " " ++ fmt2 n.y_pos ++ " " ++ fmt2 n.z_pos ++ " "
    ++ fmtF64 n.radius ++ " "
    ++ (if n.parent_id = n.node_id then "-1" else toString n.parent_id)

/-- The lines of the optional write-back output: one header comment line
followed by one line per remapped record. -/
def writeLines (rem : List Node) : List String :=
  "# Processed SWC file" :: rem.map fmtNode

/-- Electrical dynamics variant tags (src/channels.rs).  The variants carry
no data yet; the payload structs are empty in the source. -/
inductive ChannelType where
  | Unspecified
  | Passive
  | Extracellular
  | HodgkinHuxley
  deriving DecidableEq, Repr

/-- Channel placeholder attached to every compartment (src/channels.rs):
Channel default has unspecified type and zeroed parameters. -/
structure Channel where
  channel_type : ChannelType := .Unspecified
  resistance : ℚ := 0
  capacitance : ℚ := 0
  conductance : ℚ := 0
  deriving DecidableEq, Repr

/-- One compartment of the built tree (struct Compartment in
src/compartments.rs).  Lengths are f64 values modelled as reals because
they come out of a square root. -/
structure Compartment where
  name : String
  idx : Nat
  parent_idxs : List Nat
  children_idxs : List Nat
  length : ℝ
  diam : ℚ
  channel : Channel

/-- The compartment tree: one owned contiguous sequence
(struct Compartments in src/compartments.rs). -/
structure Compartments where
  components : List Compartment

/-- Squaring helper (fn square in src/compartments.rs). -/
def square (x : ℝ) : ℝ := x * x

/-- Euclidean length between two nodes (fn compute_length in
src/compartments.rs lines 34 to 39). -/
noncomputable def compute_length (curr other : Node) : ℝ :=
  Real.sqrt (square ((curr.x_pos : ℝ) - (other.x_pos : ℝ))
    + square ((curr.y_pos : ℝ) - (other.y_pos : ℝ))
    + square ((curr.z_pos : ℝ) - (other.z_pos : ℝ)))

/-- The node_id_to_idx HashMap of from_sorted_nodes: position of the last
record with the given identifier. -/
def nodeIdxOf (sorted : List Node) (id : Nat) : Option Nat :=
  lastIdxOf (sorted.map fun n => n.node_id) id

/-- Length from parent for one record (src/compartments.rs lines 78 to 86):
zero when the remapped parent identifier is 0, otherwise the Euclidean
distance to the record found by looking the parent identifier up in
node_id_to_idx.  The HashMap index panics when the parent identifier is
absent, modelled by none. -/
noncomputable def compartmentLengthOf (sorted : List Node) (n : Node) : Option ℝ :=
  if n.parent_id = 0 then some 0
  else
    match nodeIdxOf sorted n.parent_id with
    | none => none
    | some pidx =>
      match sorted.get? pidx with
      | none => none
      | some parent => some (compute_length n parent)

/-- Build the compartments for the records, in order, with i the 0-based
position of the record (the loop of from_sorted_nodes, src/compartments.rs
lines 69 to 108). -/
noncomputable def buildComps (sorted : List Node) (pcm cpm : Nat → List Nat) :
    List Node → Nat → Option (List Compartment)
  | [], _ => some []
  | n :: rest, i =>
    match compartmentLengthOf sorted n, buildComps sorted pcm cpm rest (i + 1) with
    | some len, some comps =>
        some ({ name := if i = 0 then "Compartment: 1 (Soma)"
                        else "Compartment: " ++ toString (i + 1)
                idx := i + 1
                parent_idxs := cpm n.node_id
                children_idxs := pcm n.node_id
                length := len
                diam := n.radius * 2
                channel := {} } :: comps)
    | _, _ => none

/-- The synthetic dummy root pushed at index 0 (src/compartments.rs lines
57 to 65). -/
def dummyRoot : Compartment :=
  { name := "Dummy Root"
    idx := 0
    parent_idxs := []
    children_idxs := []
    length := 0
    diam := 0
    channel := {} }

/-- Compartments::from_sorted_nodes (src/compartments.rs lines 42 to 111):
dummy root first, then one compartment per record in order. -/
noncomputable def from_sorted_nodes (sorted : List Node) (pcm cpm : Nat → List Nat) :
    Option Compartments :=
  (buildComps sorted pcm cpm sorted 0).map fun comps =>
    { components := dummyRoot :: comps }

/-- The 5-line reference input of the spec concrete scenario and of
tests::test_swc_reader_basic (data/basic.swc). -/
def basicLines : List String :=
  ["1 1 0 0 0 1 -1",
   "2 3 1 0 0 1 1",
   "3 3 2 0 0 1 1",
   "4 4 3 0 0 1 1",
   "5 6 4 0 0 1 4"]

/-- The remapped records swc_reader produces for basicLines. -/
def rem10 : List Node :=
  [⟨0, .Soma, 0, 0, 0, 1, 0⟩,
   ⟨1, .BasalDendrite, 1, 0, 0, 1, 0⟩,
   ⟨2, .BasalDendrite, 2, 0, 0, 1, 0⟩,
   ⟨3, .ApicalDendrite, 3, 0, 0, 1, 0⟩,
   ⟨4, .EndPoint, 4, 0, 0, 1, 3⟩]

/-- The compartment tree built from the basicLines output triple. -/
noncomputable def tree10 : Option Compartments :=
  from_sorted_nodes rem10 (parentChildMap rem10) (childParentMap rem10)

/-- The records parsed from basicLines before remapping. -/
def ns10 : List Node :=
  [⟨1, .Soma, 0, 0, 0, 1, 0⟩,
   ⟨2, .BasalDendrite, 1, 0, 0, 1, 1⟩,
   ⟨3, .BasalDendrite, 2, 0, 0, 1, 1⟩,
   ⟨4, .ApicalDendrite, 3, 0, 0, 1, 1⟩,
   ⟨5, .EndPoint, 4, 0, 0, 1, 4⟩]

/-- The root record selected for basicLines. -/
def root10 : Node := ⟨1, .Soma, 0, 0, 0, 1, 0⟩

/-- The remapped records a second swc_reader run produces from the written
form of rem10: records 1 to 3 come back self-referencing because their
written parent 0 collides with the no-parent marker. -/
def rem10second : List Node :=
  [⟨0, .Soma, 0, 0, 0, 1, 0⟩,
   ⟨1, .BasalDendrite, 1, 0, 0, 1, 1⟩,
   ⟨2, .BasalDendrite, 2, 0, 0, 1, 2⟩,
   ⟨3, .ApicalDendrite, 3, 0, 0, 1, 3⟩,
   ⟨4, .EndPoint, 4, 0, 0, 1, 3⟩]

/-- Parsed records of a malformed input whose two records share identifier
4 under different parents, making the BFS enqueue 4 twice. -/
def cycleNodes : List Node :=
  [⟨1, .Soma, 0, 0, 0, 1, 0⟩,
   ⟨2, .BasalDendrite, 0, 0, 0, 1, 1⟩,
   ⟨3, .BasalDendrite, 0, 0, 0, 1, 1⟩,
   ⟨4, .ApicalDendrite, 0, 0, 0, 1, 2⟩,
   ⟨4, .ApicalDendrite, 0, 0, 0, 1, 3⟩]

section Lemmas

/-- Counting lemma for the BFS measure: marking v visited removes from the
unvisited-parent count exactly the records whose parent is v. -/
lemma length_filter_visited_cons (nodes : List Node) (visited : List Nat)
    (v : Nat) (hv : v ∉ visited) :
    (nodes.filter fun n =>
        !decide (n.parent_id = v) && !decide (n.parent_id ∈ visited)).length
      + (nodes.filter fun n => decide (n.parent_id = v)).length
      = (nodes.filter fun n => !decide (n.parent_id ∈ visited)).length := by
  induction nodes with
  | nil => simp
  | cons a as ih =>
    by_cases hav : a.parent_id = v
    · have hnm : a.parent_id ∉ visited := by rw [hav]; exact hv
      simp only [List.filter_cons]
      simp [hav, hnm, hv]
      omega
    · by_cases hvis : a.parent_id ∈ visited
      · simp only [List.filter_cons]
        simp [hav, hvis]
        omega
      · simp only [List.filter_cons]
        simp [hav, hvis]
        omega

/-- Visiting a new identifier strictly decreases the BFS measure. -/
lemma bfsMeasure_step (nodes : List Node) (v : Nat) (rest visited : List Nat)
    (hv : v ∉ visited) :
    bfsMeasure nodes
        (rest ++ (childrenOf nodes v).filter fun c => !decide (c ∈ v :: visited))
        (v :: visited) + 1
      ≤ bfsMeasure nodes (v :: rest) visited := by
  have hpush : ((childrenOf nodes v).filter
      fun c => !decide (c ∈ v :: visited)).length
      ≤ (nodes.filter fun n => decide (n.parent_id = v)).length := by
    calc ((childrenOf nodes v).filter fun c => !decide (c ∈ v :: visited)).length
        ≤ (childrenOf nodes v).length := List.length_filter_le _ _
      _ = (nodes.filter fun n => decide (n.parent_id = v)).length := by
          simp [childrenOf]
  have hsplit := length_filter_visited_cons nodes visited v hv
  simp only [bfsMeasure, List.length_append, List.length_cons, List.mem_cons,
    Bool.decide_or, Bool.not_or] at *
  omega

/-- The BFS loop always finishes within the measure as fuel: this is the
termination argument for the Rust while loop. -/
lemma bfsGo_total (nodes : List Node) : ∀ fuel queue visited order warns,
    bfsMeasure nodes queue visited ≤ fuel →
    (bfsGo nodes fuel queue visited order warns).isSome := by
  intro fuel
  induction fuel with
  | zero =>
    intro queue visited order warns h
    cases queue with
    | nil => simp [bfsGo]
    | cons v rest => simp [bfsMeasure] at h
  | succ f ih =>
    intro queue visited order warns h
    cases queue with
    | nil => simp [bfsGo]
    | cons v rest =>
      by_cases hv : v ∈ visited
      · simp only [bfsGo, hv, if_pos]
        apply ih
        simp only [bfsMeasure, List.length_cons] at h ⊢
        omega
      · simp only [bfsGo, hv, if_neg, not_false_iff]
        apply ih
        have := bfsMeasure_step nodes v rest visited hv
        omega

/-- The accumulated order is a prefix of the final BFS order. -/
lemma bfsGo_prefix (nodes : List Node) : ∀ fuel queue visited order warns res,
    bfsGo nodes fuel queue visited order warns = some res →
    ∃ t, res.1 = order ++ t := by
  intro fuel
  induction fuel with
  | zero =>
    intro queue visited order warns res h
    cases queue with
    | nil =>
      simp only [bfsGo, Option.some.injEq] at h
      exact ⟨[], by simp [← h]⟩
    | cons v rest => simp [bfsGo] at h
  | succ f ih =>
    intro queue visited order warns res h
    cases queue with
    | nil =>
      simp only [bfsGo, Option.some.injEq] at h
      exact ⟨[], by simp [← h]⟩
    | cons v rest =>
      by_cases hv : v ∈ visited
      · exact ih _ _ _ _ _ (by simpa [bfsGo, hv] using h)
      · obtain ⟨t, ht⟩ := ih _ _ _ _ _ (by simpa [bfsGo, hv] using h)
        exact ⟨v :: t, by simp [ht]⟩

/-- The BFS never appends an identifier to the order twice. -/
lemma bfsGo_nodup (nodes : List Node) : ∀ fuel queue visited order warns res,
    bfsGo nodes fuel queue visited order warns = some res →
    order.Nodup → (∀ x, x ∈ order → x ∈ visited) →
    res.1.Nodup := by
  intro fuel
  induction fuel with
  | zero =>
    intro queue visited order warns res h h1 _
    cases queue with
    | nil =>
      simp only [bfsGo, Option.some.injEq] at h
      rw [← h]
      exact h1
    | cons v rest => simp [bfsGo] at h
  | succ f ih =>
    intro queue visited order warns res h h1 h2
    cases queue with
    | nil =>
      simp only [bfsGo, Option.some.injEq] at h
      rw [← h]
      exact h1
    | cons v rest =>
      by_cases hv : v ∈ visited
      · exact ih _ _ _ _ _ (by simpa [bfsGo, hv] using h) h1 h2
      · apply ih _ _ _ _ _ (by simpa [bfsGo, hv] using h)
        · have hvo : v ∉ order := fun hvo => hv (h2 v hvo)
          simp [List.nodup_append, h1, hvo]
        · intro x hx
          rcases List.mem_append.mp hx with hx | hx
          · exact List.mem_cons_of_mem _ (h2 x hx)
          · simp only [List.mem_singleton] at hx
            subst hx
            exact List.mem_cons_self _ _

/-- An identifier absent from the list has no last index. -/
lemma lastIdxOf_eq_none (l : List Nat) (x : Nat) (hx : x ∉ l) :
    lastIdxOf l x = none := by
  induction l with
  | nil => rfl
  | cons a as ih =>
    simp only [List.mem_cons, not_or] at hx
    have ha : a ≠ x := fun h => hx.1 h.symm
    simp [lastIdxOf, ih hx.2, ha]

/-- A last index points at an occurrence of the identifier. -/
lemma lastIdxOf_get (l : List Nat) (x : Nat) : ∀ j, lastIdxOf l x = some j →
    ∃ h : j < l.length, l.get ⟨j, h⟩ = x := by
  induction l with
  | nil => intro j h; simp [lastIdxOf] at h
  | cons a as ih =>
    intro j h
    simp only [lastIdxOf] at h
    cases hrec : lastIdxOf as x with
    | some k =>
      rw [hrec] at h
      simp only [Option.some.injEq] at h
      subst h
      obtain ⟨hk, hget⟩ := ih k hrec
      exact ⟨by simpa using Nat.succ_lt_succ hk, by simpa using hget⟩
    | none =>
      rw [hrec] at h
      by_cases hax : a = x
      · simp only [hax, if_pos, Option.some.injEq] at h
        subst h
        exact ⟨by simp, by simpa using hax⟩
      · simp [hax] at h

/-- In a duplicate-free list the last index of the element at i is i. -/
lemma lastIdxOf_self_of_nodup (l : List Nat) (hl : l.Nodup) :
    ∀ i (h : i < l.length), lastIdxOf l (l.get ⟨i, h⟩) = some i := by
  induction l with
  | nil => intro i h; simp at h
  | cons a as ih =>
    intro i h
    cases i with
    | zero =>
      have ha : a ∉ as := (List.nodup_cons.mp hl).1
      simp [lastIdxOf, lastIdxOf_eq_none as a ha]
    | succ i =>
      have hi := ih (List.nodup_cons.mp hl).2 i (by simpa using Nat.lt_of_succ_lt_succ h)
      simp only [List.get_eq_getElem] at hi ⊢
      simp [lastIdxOf, hi]

/-- A successful nodeById lookup returns a member carrying the key. -/
lemma nodeById_spec (ns : List Node) (id : Nat) (n : Node)
    (h : nodeById ns id = some n) : n ∈ ns ∧ n.node_id = id := by
  unfold nodeById at h
  have hmem := List.mem_of_mem_getLast? h
  have := List.of_mem_filter hmem
  simp only [decide_eq_true_eq] at this
  exact ⟨List.mem_of_mem_filter hmem, this⟩

/-- With pairwise distinct identifiers, nodeById finds each record. -/
lemma nodeById_of_nodup (ns : List Node)
    (hn : (ns.map fun n => n.node_id).Nodup) (x : Node) (hx : x ∈ ns) :
    nodeById ns x.node_id = some x := by
  induction ns with
  | nil => simp at hx
  | cons a as ih =>
    simp only [List.map_cons, List.nodup_cons] at hn
    rcases List.mem_cons.mp hx with hx | hx
    · subst hx
      have hfil : as.filter (fun n => decide (n.node_id = x.node_id)) = [] := by
        apply List.filter_eq_nil_iff.mpr
        intro b hb hbid
        simp only [decide_eq_true_eq] at hbid
        exact hn.1 (hbid ▸ List.mem_map_of_mem (fun n => n.node_id) hb)
      simp [nodeById, List.filter_cons, hfil]
    · have hne : ¬ a.node_id = x.node_id := by
        intro hco
        exact hn.1 (hco ▸ List.mem_map_of_mem (fun n => n.node_id) hx)
      have := ih hn.2 hx
      simpa [nodeById, List.filter_cons, hne] using this

/-- Unfolding a successful remapNode. -/
lemma remapNode_elim (ns : List Node) (order : List Nat) (o : Nat) (n : Node)
    (h : remapNode ns order o = some n) :
    ∃ base newId, nodeById ns o = some base ∧ lastIdxOf order o = some newId ∧
      n.node_id = newId ∧
      n.parent_id = (if base.parent_id = 0 then newId
                     else (lastIdxOf order base.parent_id).getD 0) ∧
      n.structured_identifier = base.structured_identifier ∧
      n.radius = (if base.radius = 0 then 1 else base.radius) := by
  unfold remapNode at h
  cases hb : nodeById ns o with
  | none => rw [hb] at h; simp at h
  | some base =>
    rw [hb] at h
    cases hi : lastIdxOf order o with
    | none => rw [hi] at h; simp at h
    | some newId =>
      rw [hi] at h
      simp only [Option.some.injEq] at h
      refine ⟨base, newId, rfl, rfl, ?_, ?_, ?_, ?_⟩ <;> simp [← h]

/-- A successful remapAux output has one record per remaining identifier,
each produced by remapNode. -/
lemma remapAux_some (ns : List Node) (order : List Nat) :
    ∀ rest out, remapAux ns order rest = some out →
      out.length = rest.length ∧
      ∀ i (h1 : i < out.length) (h2 : i < rest.length),
        remapNode ns order (rest.get ⟨i, h2⟩) = some (out.get ⟨i, h1⟩) := by
  intro rest
  induction rest with
  | nil =>
    intro out h
    simp only [remapAux, Option.some.injEq] at h
    subst h
    exact ⟨rfl, by intro i h1 h2; simp at h1⟩
  | cons o os ih =>
    intro out h
    simp only [remapAux] at h
    cases hro : remapNode ns order o with
    | none => rw [hro] at h; simp at h
    | some n =>
      rw [hro] at h
      cases hra : remapAux ns order os with
      | none => rw [hra] at h; simp at h
      | some outs =>
        rw [hra] at h
        simp only [Option.some.injEq] at h
        subst h
        obtain ⟨hl, hg⟩ := ih outs hra
        refine ⟨by simp [hl], ?_⟩
        intro i h1 h2
        cases i with
        | zero => simpa using hro
        | succ i =>
          simpa using hg i (by simpa using Nat.lt_of_succ_lt_succ h1)
            (by simpa using Nat.lt_of_succ_lt_succ h2)

/-- Inversion of a successful swc_reader run into its stages. -/
lemma swc_reader_ok_elim (lines : List String) (ew st : Option Bool)
    (out : List Node) (h : swc_reader lines ew st = .ok out) :
    ∃ ns root, parsedOf lines ew st = .ok ns ∧ rootOf ns = some root ∧
      remapPhase ns (swcOrder ns root) = some out := by
  unfold swc_reader at h
  split at h
  · simp at h
  · simp at h
  · rename_i ns hp
    split at h
    · simp at h
    · rename_i root hr
      split at h
      · simp at h
      · rename_i rem hm
        simp only [SwcResult.ok.injEq] at h
        subst h
        exact ⟨ns, root, hp, hr, hm⟩

/-- The visiting order that swcOrder returns comes from a completed run of
the fueled loop. -/
lemma swcOrder_eq (ns : List Node) (root : Node) :
    ∃ res, bfsGo ns (bfsMeasure ns [root.node_id] []) [root.node_id] [] [] 0
        = some res ∧ swcOrder ns root = res.1 := by
  have h := bfsGo_total ns (bfsMeasure ns [root.node_id] []) [root.node_id] [] [] 0
    le_rfl
  obtain ⟨res, hres⟩ := Option.isSome_iff_exists.mp h
  exact ⟨res, hres, by simp [swcOrder, bfsLoop, hres]⟩

/-- The visiting order never repeats an identifier. -/
lemma swcOrder_nodup (ns : List Node) (root : Node) : (swcOrder ns root).Nodup := by
  obtain ⟨res, hres, heq⟩ := swcOrder_eq ns root
  rw [heq]
  exact bfsGo_nodup ns _ _ _ _ _ _ hres (by simp) (by simp)

/-- The visiting order starts with the selected root. -/
lemma swcOrder_head (ns : List Node) (root : Node) :
    ∃ t, swcOrder ns root = root.node_id :: t := by
  obtain ⟨res, hres, heq⟩ := swcOrder_eq ns root
  obtain ⟨m, hm⟩ : ∃ m, bfsMeasure ns [root.node_id] [] = m + 1 := by
    cases hzero : bfsMeasure ns [root.node_id] [] with
    | zero => simp [bfsMeasure] at hzero
    | succ m => exact ⟨m, rfl⟩
  rw [hm] at hres
  simp only [bfsGo, List.not_mem_nil, if_neg, not_false_iff, List.nil_append] at hres
  obtain ⟨t, ht⟩ := bfsGo_prefix ns m _ _ _ _ _ hres
  rw [heq, ht]
  exact ⟨t, by simp⟩

/-- Characterization of a successful find?: the witness sits at the first
index satisfying the predicate. -/
lemma find?_first {α : Type} (p : α → Bool) : ∀ (l : List α) a, l.find? p = some a →
    ∃ i, ∃ hi : i < l.length, l.get ⟨i, hi⟩ = a ∧ p a = true ∧
      ∀ j (hj : j < l.length), j < i → ¬ p (l.get ⟨j, hj⟩) = true := by
  intro l
  induction l with
  | nil => intro a h; simp at h
  | cons x xs ih =>
    intro a h
    cases hx : p x with
    | true =>
      rw [List.find?_cons_of_pos _ hx] at h
      simp only [Option.some.injEq] at h
      subst h
      exact ⟨0, by simp, rfl, hx, fun j hj hj0 => absurd hj0 (Nat.not_lt_zero j)⟩
    | false =>
      rw [List.find?_cons_of_neg _ (by simp [hx])] at h
      obtain ⟨i, hi, hget, hpa, hprev⟩ := ih a h
      refine ⟨i + 1, by simpa using Nat.succ_lt_succ hi, by simpa using hget, hpa, ?_⟩
      intro j hj hji
      cases j with
      | zero => simp [hx]
      | succ j =>
        have := hprev j (by simpa using Nat.lt_of_succ_lt_succ hj)
          (Nat.lt_of_succ_lt_succ hji)
        simpa using this

end Lemmas

section Claims

/-- C10: on the 5-line reference input swc_reader succeeds and yields
exactly 5 ordered records with new identifiers 0 through 4, record 0
self-referencing as root, records 1 to 3 with parent 0, record 4 with
parent 3, and the forward parent-to-children map at key 0 holding exactly
0, 1, 2, 3. -/
theorem c10_concrete_scenario :
    swc_reader basicLines (some true) (some true) = .ok rem10
    ∧ rem10.length = 5
    ∧ (rem10.map fun n => n.node_id) = [0, 1, 2, 3, 4]
    ∧ (rem10.map fun n => n.parent_id) = [0, 0, 0, 0, 3]
    ∧ parentChildMap rem10 0 = [0, 1, 2, 3] := by
  refine ⟨by decide, by decide, by decide, by decide, by decide⟩

/-- C3: the round trip is not idempotent.  The first run maps records 1 to
3 to parent 0; the write-back writes that parent as 0, and the second run
conflates parent 0 with the no-parent marker, so records 1 to 3 come back
self-referencing and the topology changes. -/
theorem c3_roundtrip_broken :
    swc_reader basicLines (some true) (some true) = .ok rem10
    ∧ writeLines rem10 =
        ["# Processed SWC file",
         "0 1 0.00 0.00 0.00 1 -1",
         "1 3 1.00 0.00 0.00 1 0",
         "2 3 2.00 0.00 0.00 1 0",
         "3 4 3.00 0.00 0.00 1 0",
         "4 6 4.00 0.00 0.00 1 3"]
    ∧ swc_reader (writeLines rem10) (some true) (some true) = .ok rem10second
    ∧ (rem10.map fun n => n.parent_id) = [0, 0, 0, 0, 3]
    ∧ (rem10second.map fun n => n.parent_id) = [0, 1, 2, 3, 3] := by
  refine ⟨by decide, by decide, by decide, by decide, by decide⟩

/-- C2 counterexample: an input whose second record also uses the -1
sentinel while identifier 0 is in use produces two self-referencing output
records, so the root is not the only record whose parent equals its own
identifier. -/
theorem c2_counterexample :
    swc_reader ["0 1 0 0 0 1 -1", "5 3 1 0 0 1 -1"] none none =
      .ok [⟨0, .Soma, 0, 0, 0, 1, 0⟩, ⟨1, .BasalDendrite, 1, 0, 0, 1, 1⟩]
    ∧ ¬ (∀ n ∈ ([⟨0, .Soma, 0, 0, 0, 1, 0⟩,
          ⟨1, .BasalDendrite, 1, 0, 0, 1, 1⟩] : List Node),
          n.parent_id = n.node_id → n.node_id = 0) := by
  refine ⟨by decide, by decide⟩

/-- C5 counterexample: a zero-radius Soma record with strict mode on but
warnings disabled is accepted, because the strict check is nested inside
the warnings branch; swc_reader returns a tree instead of failing. -/
theorem c5_counterexample :
    parseLine "1 1 0 0 0 0 -1" = some ⟨1, .Soma, 0, 0, 0, 0, 0⟩
    ∧ swc_reader ["1 1 0 0 0 0 -1"] (some false) (some true) =
        .ok [⟨0, .Soma, 0, 0, 0, 1, 0⟩] := by
  refine ⟨by decide, by decide⟩

/-- C6 counterexample: a non-comment line with eight fields does not make
swc_reader fail; the eighth field is silently ignored. -/
theorem c6_counterexample :
    (splitWS "1 1 0 0 0 1 -1 9").length = 8
    ∧ swc_reader ["1 1 0 0 0 1 -1 9"] none none =
        .ok [⟨0, .Soma, 0, 0, 0, 1, 0⟩] := by
  refine ⟨by decide, by decide⟩

/-- C7 counterexample: an input whose only record carries file parent 0,
never -1, still succeeds, because the internal marker for -1 is 0 itself;
so the reader does not fail with the no-root error although no record used
the -1 sentinel. -/
theorem c7_counterexample :
    splitWS "1 1 0 0 0 1 0" = ["1", "1", "0", "0", "0", "1", "0"]
    ∧ swc_reader ["1 1 0 0 0 1 0"] none none =
        .ok [⟨0, .Soma, 0, 0, 0, 1, 0⟩] := by
  refine ⟨by decide, by decide⟩

/-- C8: the BFS terminates on every input (the fueled loop always
completes within its measure), the visiting order never contains an
identifier twice, and on a concrete input that enqueues an identifier
twice the second dequeue is skipped with one cycle warning while the
traversal still completes. -/
theorem c8_bfs_terminates_and_skips :
    (∀ (nodes : List Node) (queue visited order : List Nat) (warns : Nat),
        (bfsGo nodes (bfsMeasure nodes queue visited) queue visited order warns).isSome
          = true)
    ∧ (∀ (ns : List Node) (root : Node), (swcOrder ns root).Nodup)
    ∧ parseNodes true false
        ["1 1 0 0 0 1 -1", "2 3 0 0 0 1 1", "3 3 0 0 0 1 1",
         "4 4 0 0 0 1 2", "4 4 0 0 0 1 3"] = .ok cycleNodes
    ∧ bfsLoop cycleNodes [1] [] [] 0 = ([1, 2, 3, 4], 1) := by
  refine ⟨?_, ?_, by decide, by decide⟩
  · intro nodes queue visited order warns
    exact bfsGo_total nodes _ queue visited order warns le_rfl
  · intro ns root
    exact swcOrder_nodup ns root

/-- C1: in the tree built from the basicLines output, the compartment of
record 1 (a direct child of the root, sitting at distance 1 from it) gets
length 0, because the builder treats every record with remapped parent
identifier 0 as the root case; only record 4, whose remapped parent is 3,
gets its Euclidean distance.  The lengths list shows entries 1 to 4 (the
compartments of records 0 to 3) all zero; the second conjunct computes the
actual distance between record 1 and its parent record 0. -/
theorem c1_root_children_get_zero_length :
    (tree10.map fun C => C.components.map fun c => c.length)
      = some [0, 0, 0, 0, 0,
          compute_length ⟨4, .EndPoint, 4, 0, 0, 1, 3⟩ ⟨3, .ApicalDendrite, 3, 0, 0, 1, 0⟩]
    ∧ compute_length ⟨1, .BasalDendrite, 1, 0, 0, 1, 0⟩ ⟨0, .Soma, 0, 0, 0, 1, 0⟩ = 1
    ∧ compute_length ⟨4, .EndPoint, 4, 0, 0, 1, 3⟩ ⟨3, .ApicalDendrite, 3, 0, 0, 1, 0⟩ = 1 := by
  refine ⟨rfl, ?_, ?_⟩
  · simp [compute_length, square]
  · simp only [compute_length, square]
    push_cast
    norm_num [Real.sqrt_one]

/-- C9: the compartment indices run 0 to 5 with the dummy root at 0 and the
compartment of record i at i + 1, while the parent and child index sets
hold raw remapped record identifiers: record 1 (compartment index 2)
carries parent set [0], which as an index into the sequence names the dummy
root, not compartment 1 built from its parent record 0; record 3
(compartment index 4) carries child set [4], which names the compartment of
record 3, not compartment 5 built from its child record 4. -/
theorem c9_index_sets_are_record_ids :
    (tree10.map fun C => C.components.map fun c => c.idx) = some [0, 1, 2, 3, 4, 5]
    ∧ (tree10.map fun C => C.components.map fun c => c.name)
        = some ["Dummy Root", "Compartment: 1 (Soma)", "Compartment: 2",
                "Compartment: 3", "Compartment: 4", "Compartment: 5"]
    ∧ (tree10.map fun C => C.components.map fun c => c.parent_idxs)
        = some [[], [0], [0], [0], [0], [3]]
    ∧ (tree10.map fun C => C.components.map fun c => c.children_idxs)
        = some [[], [0, 1, 2, 3], [], [], [4], []] := by
  refine ⟨rfl, rfl, rfl, rfl⟩

/-- C4: on every successful run the output has exactly one record per
identifier in the BFS visiting order (which never repeats an identifier
and starts at the selected root), and each output record carries as new
identifier its 0-based position in that order, so the identifiers are
exactly 0 to N - 1 with the root receiving 0. -/
theorem c4_dense_sequential_remap (lines : List String) (ew st : Option Bool)
    (out : List Node) (h : swc_reader lines ew st = .ok out) :
    ∃ ns root, parsedOf lines ew st = .ok ns ∧ rootOf ns = some root ∧
      (swcOrder ns root).Nodup ∧
      out.length = (swcOrder ns root).length ∧
      (∃ t, swcOrder ns root = root.node_id :: t) ∧
      (∀ i (hi : i < out.length), (out.get ⟨i, hi⟩).node_id = i) ∧
      (∀ i (hi : i < out.length) (ho : i < (swcOrder ns root).length),
        remapNode ns (swcOrder ns root) ((swcOrder ns root).get ⟨i, ho⟩)
          = some (out.get ⟨i, hi⟩)) := by
  obtain ⟨ns, root, hp, hr, hm⟩ := swc_reader_ok_elim lines ew st out h
  have hnodup := swcOrder_nodup ns root
  obtain ⟨hlen, hget⟩ := remapAux_some ns (swcOrder ns root) (swcOrder ns root) out hm
  refine ⟨ns, root, hp, hr, hnodup, hlen, swcOrder_head ns root, ?_, ?_⟩
  · intro i hi
    have ho : i < (swcOrder ns root).length := by omega
    obtain ⟨base, newId, hb, hidx, hnid, _, _, _⟩ :=
      remapNode_elim _ _ _ _ (hget i hi ho)
    have hself := lastIdxOf_self_of_nodup (swcOrder ns root) hnodup i ho
    rw [hself] at hidx
    simp only [Option.some.injEq] at hidx
    omega
  · intro i hi ho
    exact hget i hi ho

/-- C2 amended: on every successful run over records with pairwise
distinct identifiers, the output record at position 0 has its parent equal
to its own identifier; and a record at a later position can share that
self-loop shape only when the record it was built from already carried the
internal 0 marker as parent (file parent -1 or 0) or was its own parent in
the input, so the root is the only self-loop whenever no other record
carries the 0 marker or a self parent. -/
theorem c2_root_self_loop_amended (lines : List String) (ew st : Option Bool)
    (out ns : List Node) (root : Node)
    (hp : parsedOf lines ew st = .ok ns)
    (hids : (ns.map fun n => n.node_id).Nodup)
    (hr : rootOf ns = some root)
    (h : swc_reader lines ew st = .ok out) :
    (∀ h0 : 0 < out.length,
      (out.get ⟨0, h0⟩).parent_id = (out.get ⟨0, h0⟩).node_id)
    ∧ ∀ i (hi : i < out.length), 0 < i →
        (out.get ⟨i, hi⟩).parent_id = (out.get ⟨i, hi⟩).node_id →
        ∃ o base, lastIdxOf (swcOrder ns root) o = some i ∧
          nodeById ns o = some base ∧
          (base.parent_id = 0 ∨ base.parent_id = base.node_id) := by
  obtain ⟨ns2, root2, hp2, hr2, hm⟩ := swc_reader_ok_elim lines ew st out h
  rw [hp] at hp2
  simp only [SwcResult.ok.injEq] at hp2
  subst hp2
  rw [hr] at hr2
  simp only [Option.some.injEq] at hr2
  subst hr2
  have hnodup := swcOrder_nodup ns root
  obtain ⟨hlen, hget⟩ := remapAux_some ns (swcOrder ns root) (swcOrder ns root) out hm
  have hrootmem : root ∈ ns := List.mem_of_find?_eq_some hr
  have hrootpar : root.parent_id = 0 := by
    have := List.find?_some hr
    simpa using this
  constructor
  · intro h0
    have ho : 0 < (swcOrder ns root).length := by omega
    obtain ⟨t, hht⟩ := swcOrder_head ns root
    have hget0 : (swcOrder ns root).get ⟨0, ho⟩ = root.node_id := by
      simp [hht]
    obtain ⟨base, newId, hb, hidx, hnid, hpid, _, _⟩ :=
      remapNode_elim _ _ _ _ (hget 0 h0 ho)
    rw [hget0] at hb
    have hbase : base = root := by
      have := nodeById_of_nodup ns hids root hrootmem
      rw [this] at hb
      simpa using hb.symm
    rw [hbase, if_pos hrootpar] at hpid
    rw [hpid, hnid]
  · intro i hi hipos hself
    have ho : i < (swcOrder ns root).length := by omega
    obtain ⟨base, newId, hb, hidx, hnid, hpid, _, _⟩ :=
      remapNode_elim _ _ _ _ (hget i hi ho)
    have hselfidx := lastIdxOf_self_of_nodup (swcOrder ns root) hnodup i ho
    rw [hselfidx] at hidx
    simp only [Option.some.injEq] at hidx
    subst hidx
    refine ⟨(swcOrder ns root).get ⟨i, ho⟩, base, hselfidx, hb, ?_⟩
    by_cases hzero : base.parent_id = 0
    · exact Or.inl hzero
    · right
      rw [if_neg hzero] at hpid
      cases hfind : lastIdxOf (swcOrder ns root) base.parent_id with
      | none =>
        rw [hfind] at hpid
        simp only [Option.getD_none] at hpid
        rw [hpid, hnid] at hself
        omega
      | some p =>
        rw [hfind] at hpid
        simp only [Option.getD_some] at hpid
        rw [hpid, hnid] at hself
        rw [hself] at hfind
        obtain ⟨hplt, hpeq⟩ := lastIdxOf_get (swcOrder ns root) base.parent_id i hfind
        have hbid : base.node_id = (swcOrder ns root).get ⟨i, ho⟩ :=
          (nodeById_spec ns _ base hb).2
        rw [hbid, ← hpeq]

/-- C5 amended: with strict mode on and warnings not disabled, an input
whose non-comment lines all parse and which contains a zero-radius record
of a type other than EndPoint makes swc_reader return the zero-radius
error, producing no tree.  (When warnings are disabled the check is
skipped, see the counterexample.) -/
theorem c5_strict_zero_radius_amended (lines : List String) (ew st : Option Bool)
    (hst : st = some true) (hew : ew ≠ some false)
    (hparse : ∀ l ∈ nonComment lines, (parseLine l).isSome = true)
    (hbad : ∃ l ∈ nonComment lines, ∃ n, parseLine l = some n ∧
      n.radius = 0 ∧ n.structured_identifier ≠ .EndPoint) :
    swc_reader lines ew st = .fail "Zero-radius for non-endpoint" := by
  subst hst
  have hewb : ew.getD true = true := by
    cases ew with
    | none => rfl
    | some b =>
      cases b with
      | false => exact absurd rfl hew
      | true => rfl
  have key : ∀ ls, (∀ l ∈ ls, (parseLine l).isSome = true) →
      (∃ l ∈ ls, ∃ n, parseLine l = some n ∧
        n.radius = 0 ∧ n.structured_identifier ≠ .EndPoint) →
      parseNodes true true ls = .fail "Zero-radius for non-endpoint" := by
    intro ls
    induction ls with
    | nil =>
      intro _ hb
      simp at hb
    | cons l rest ih =>
      intro hp hb
      obtain ⟨n, hn⟩ := Option.isSome_iff_exists.mp (hp l (by simp))
      by_cases hzero : n.radius = 0 ∧ n.structured_identifier ≠ .EndPoint
      · have hcond : n.radius = 0 ∧ True = True ∧
            n.structured_identifier ≠ .EndPoint ∧ True = True :=
          ⟨hzero.1, rfl, hzero.2, rfl⟩
        simp [parseNodes, hn, hzero.1, hzero.2]
      · have hrest : ∃ l2 ∈ rest, ∃ n2, parseLine l2 = some n2 ∧
            n2.radius = 0 ∧ n2.structured_identifier ≠ .EndPoint := by
          rcases hb with ⟨l2, hl2, n2, hn2, hr0, hne⟩
          rcases List.mem_cons.mp hl2 with hl2e | hmem
          · subst hl2e
            rw [hn] at hn2
            simp only [Option.some.injEq] at hn2
            subst hn2
            exact absurd ⟨hr0, hne⟩ hzero
          · exact ⟨l2, hmem, n2, hn2, hr0, hne⟩
        have hrec := ih (fun l2 hl2 => hp l2 (List.mem_cons_of_mem _ hl2)) hrest
        have hcond : ¬ (n.radius = 0 ∧ True = True ∧
            n.structured_identifier ≠ .EndPoint ∧ True = True) := by
          intro hc
          exact hzero ⟨hc.1, hc.2.2.1⟩
        simp only [parseNodes, hn]
        rw [if_neg (by simpa using hcond), hrec]
  have hfail := key (nonComment lines) hparse hbad
  unfold swc_reader parsedOf
  rw [hewb]
  simp only [Option.getD_some]
  rw [hfail]

/-- C6 amended: a non-comment line on which the per-field unwraps fail
(fewer than seven whitespace fields, or one of the first seven fields not
parsing as its numeric type) prevents swc_reader from ever returning
successfully: the run aborts with a panic, or an earlier line already
produced the strict geometry error.  Extra fields beyond the seventh never
fail (see the counterexample). -/
theorem c6_malformed_line_prevents_success (lines : List String)
    (ew st : Option Bool)
    (hbad : ∃ l ∈ nonComment lines, parseLine l = none) :
    ∀ out, swc_reader lines ew st ≠ .ok out := by
  have key : ∀ (e s : Bool) ls, (∃ l ∈ ls, parseLine l = none) →
      ∀ ns, parseNodes e s ls ≠ .ok ns := by
    intro e s ls
    induction ls with
    | nil =>
      intro hb
      simp at hb
    | cons l rest ih =>
      intro hb ns hok
      rcases hb with ⟨l2, hl2, hnone⟩
      rcases List.mem_cons.mp hl2 with hl2e | hmem
      · subst hl2e
        simp [parseNodes, hnone] at hok
      · cases hpl : parseLine l with
        | none => simp [parseNodes, hpl] at hok
        | some n =>
          simp only [parseNodes, hpl] at hok
          by_cases hc : n.radius = 0 ∧ e = true ∧
              n.structured_identifier ≠ .EndPoint ∧ s = true
          · rw [if_pos hc] at hok
            simp at hok
          · rw [if_neg hc] at hok
            cases hrec : parseNodes e s rest with
            | ok ns2 => exact ih ⟨l2, hmem, hnone⟩ ns2 hrec
            | fail m => rw [hrec] at hok; simp at hok
            | panicked => rw [hrec] at hok; simp at hok
  intro out hok
  obtain ⟨ns, _, hp, _, _⟩ := swc_reader_ok_elim lines ew st out hok
  exact key _ _ _ hbad ns hp

/-- C7 amended: the internal no-parent marker is 0, and over the i64 range
a file parent value translates to it exactly when it is -1 or 0 — the
marker is not distinct from the real identifier 0.  Root candidates are
exactly the records whose translated parent is 0: when none exists the
reader fails with the no-root error, and otherwise the first such record
in input order is selected and starts the BFS. -/
theorem c7_sentinel_and_root_selection (lines : List String) (ew st : Option Bool)
    (ns : List Node) (hp : parsedOf lines ew st = .ok ns) :
    (∀ p : Int, -(2 ^ 63) ≤ p → p < 2 ^ 63 →
      (translateParent p = 0 ↔ p = -1 ∨ p = 0))
    ∧ (rootOf ns = none ↔ ∀ n ∈ ns, n.parent_id ≠ 0)
    ∧ (rootOf ns = none →
        swc_reader lines ew st = .fail "No root node found (parent_id == 0)")
    ∧ (∀ root, rootOf ns = some root → root.parent_id = 0 ∧
        (∃ i, ∃ hi : i < ns.length, ns.get ⟨i, hi⟩ = root ∧
          ∀ j (hj : j < ns.length), j < i → (ns.get ⟨j, hj⟩).parent_id ≠ 0) ∧
        (∃ t, swcOrder ns root = root.node_id :: t)) := by
  refine ⟨?_, ?_, ?_, ?_⟩
  · intro p h1 h2
    unfold translateParent
    by_cases hm1 : p = -1
    · simp [hm1]
    · rw [if_neg hm1, Int.toNat_eq_zero]
      omega
  · rw [rootOf, List.find?_eq_none]
    constructor
    · intro h n hn
      have := h n hn
      simpa using this
    · intro h n hn
      simpa using h n hn
  · intro hnone
    unfold swc_reader
    rw [hp]
    dsimp only
    rw [hnone]
  · intro root hroot
    have hpar : root.parent_id = 0 := by
      have := List.find?_some hroot
      simpa using this
    refine ⟨hpar, ?_, swcOrder_head ns root⟩
    obtain ⟨i, hi, hget, _, hprev⟩ := find?_first _ ns root hroot
    refine ⟨i, hi, hget, ?_⟩
    intro j hj hji
    have := hprev j hj hji
    simpa using this

/-- Witness for C4 at the concrete reference input. -/
theorem c4_dense_sequential_remap_witness :
    ∃ ns root, parsedOf basicLines (some true) (some true) = .ok ns ∧
      rootOf ns = some root ∧
      (swcOrder ns root).Nodup ∧
      rem10.length = (swcOrder ns root).length ∧
      (∃ t, swcOrder ns root = root.node_id :: t) ∧
      (∀ i (hi : i < rem10.length), (rem10.get ⟨i, hi⟩).node_id = i) ∧
      (∀ i (hi : i < rem10.length) (ho : i < (swcOrder ns root).length),
        remapNode ns (swcOrder ns root) ((swcOrder ns root).get ⟨i, ho⟩)
          = some (rem10.get ⟨i, hi⟩)) :=
  c4_dense_sequential_remap basicLines (some true) (some true) rem10 (by decide)

/-- Witness for the amended C2 at the concrete reference input. -/
theorem c2_root_self_loop_amended_witness :
    (∀ h0 : 0 < rem10.length,
      (rem10.get ⟨0, h0⟩).parent_id = (rem10.get ⟨0, h0⟩).node_id)
    ∧ ∀ i (hi : i < rem10.length), 0 < i →
        (rem10.get ⟨i, hi⟩).parent_id = (rem10.get ⟨i, hi⟩).node_id →
        ∃ o base, lastIdxOf (swcOrder ns10 root10) o = some i ∧
          nodeById ns10 o = some base ∧
          (base.parent_id = 0 ∨ base.parent_id = base.node_id) :=
  c2_root_self_loop_amended basicLines (some true) (some true) rem10 ns10 root10
    (by decide) (by decide) (by decide) (by decide)

/-- Witness for the amended C5 at a one-line zero-radius Soma input with
warnings defaulted on and strict mode on. -/
theorem c5_strict_zero_radius_amended_witness :
    swc_reader ["1 1 0 0 0 0 -1"] none (some true) =
      .fail "Zero-radius for non-endpoint" :=
  c5_strict_zero_radius_amended ["1 1 0 0 0 0 -1"] none (some true) rfl
    (by decide) (by decide)
    ⟨"1 1 0 0 0 0 -1", by decide, ⟨1, .Soma, 0, 0, 0, 0, 0⟩, by decide, by decide,
      by decide⟩

/-- Witness for the amended C6 at a line whose fourth field is not a
number. -/
theorem c6_malformed_line_prevents_success_witness :
    swc_reader ["1 1 0 x 0 1 -1"] none none ≠ .ok [⟨1, .Soma, 0, 0, 0, 1, 0⟩] :=
  c6_malformed_line_prevents_success ["1 1 0 x 0 1 -1"] none none
    ⟨"1 1 0 x 0 1 -1", by decide, by decide⟩ [⟨1, .Soma, 0, 0, 0, 1, 0⟩]

/-- Witness for the amended C7 at the concrete reference input. -/
theorem c7_sentinel_and_root_selection_witness :
    (∀ p : Int, -(2 ^ 63) ≤ p → p < 2 ^ 63 →
      (translateParent p = 0 ↔ p = -1 ∨ p = 0))
    ∧ (rootOf ns10 = none ↔ ∀ n ∈ ns10, n.parent_id ≠ 0)
    ∧ (rootOf ns10 = none →
        swc_reader basicLines (some true) (some true) =
          .fail "No root node found (parent_id == 0)")
    ∧ (∀ root, rootOf ns10 = some root → root.parent_id = 0 ∧
        (∃ i, ∃ hi : i < ns10.length, ns10.get ⟨i, hi⟩ = root ∧
          ∀ j (hj : j < ns10.length), j < i → (ns10.get ⟨j, hj⟩).parent_id ≠ 0) ∧
        (∃ t, swcOrder ns10 root = root.node_id :: t)) :=
  c7_sentinel_and_root_selection basicLines (some true) (some true) ns10 (by decide)

end Claims

end CompartmentRs
